import Mathlib

/-!
# Verification of the snarkVM block-header and prover-solution core

A shallow embedding of `src/ledger/src/block/block_header.rs` and
`src/synthesizer/src/coinbase_puzzle/helpers/prover_solution/serialize.rs`.

Bytes are modelled as natural numbers below 256 and byte strings as
`List Nat`.  Fixed-width little-endian integer encodings are made explicit.
Components of the repository that are outside the two source files
(the PoSW miner, `BlockHeaderMetadata`'s layout, the generic serializer
helpers) are modelled from the specification and marked as such in their
doc comments.
-/

namespace SnarkVM

/-- Encode a natural number as `w` little-endian bytes (the value is
taken modulo `256 ^ w`, as fixed-width writes do). -/
def natToBytesLE : Nat → Nat → List Nat
  | 0, _ => []
  | w + 1, n => n % 256 :: natToBytesLE w (n / 256)

/-- Decode a little-endian byte string to a natural number. -/
def bytesToNatLE : List Nat → Nat
  | [] => 0
  | b :: bs => b + 256 * bytesToNatLE bs

/-- Two's-complement little-endian encoding of a signed integer in `w` bytes,
as Rust's `write_le` for `iN` produces. -/
def intToBytesLE (w : Nat) (i : Int) : List Nat :=
  natToBytesLE w (i % ((2 : Int) ^ (8 * w))).toNat

/-- Decode `w` little-endian bytes as a two's-complement signed integer. -/
def bytesToIntLE (bs : List Nat) : Int :=
  let n := bytesToNatLE bs
  if n < 2 ^ (8 * bs.length - 1) then (n : Int) else (n : Int) - 2 ^ (8 * bs.length)

/-- Read exactly `w` bytes off the front of a byte string, failing when fewer
remain; models a fixed-width `read_le` step over a byte reader. -/
def readBytes (w : Nat) (bs : List Nat) : Option (List Nat × List Nat) :=
  if w ≤ bs.length then some (bs.take w, bs.drop w) else none

theorem natToBytesLE_length (w n : Nat) : (natToBytesLE w n).length = w := by
  induction w generalizing n with
  | zero => rfl
  | succ w ih => simp [natToBytesLE, ih]

theorem bytesToNatLE_natToBytesLE (w n : Nat) (h : n < 256 ^ w) :
    bytesToNatLE (natToBytesLE w n) = n := by
  induction w generalizing n with
  | zero =>
    simp only [natToBytesLE, bytesToNatLE]
    omega
  | succ w ih =>
    simp only [natToBytesLE, bytesToNatLE]
    rw [ih]
    · omega
    · have h256 : (0 : Nat) < 256 := by norm_num
      rw [pow_succ] at h
      exact Nat.div_lt_of_lt_mul (by omega)

theorem natToBytesLE_lt (w n : Nat) : ∀ b ∈ natToBytesLE w n, b < 256 := by
  induction w generalizing n with
  | zero => simp [natToBytesLE]
  | succ w ih =>
    intro b hb
    simp only [natToBytesLE, List.mem_cons] at hb
    rcases hb with h | h
    · subst h; exact Nat.mod_lt _ (by norm_num)
    · exact ih _ _ h

theorem bytesToNatLE_lt (bs : List Nat) (h : ∀ b ∈ bs, b < 256) :
    bytesToNatLE bs < 256 ^ bs.length := by
  induction bs with
  | nil => simp [bytesToNatLE]
  | cons b bs ih =>
    simp only [bytesToNatLE, List.length_cons, pow_succ]
    have hb : b < 256 := h b (by simp)
    have hrest : bytesToNatLE bs < 256 ^ bs.length := ih (fun x hx => h x (by simp [hx]))
    calc b + 256 * bytesToNatLE bs
        < 256 + 256 * bytesToNatLE bs := by omega
      _ = 256 * (bytesToNatLE bs + 1) := by ring
      _ ≤ 256 * 256 ^ bs.length := by
          exact Nat.mul_le_mul_left 256 (by omega)
      _ = 256 ^ bs.length * 256 := by ring

theorem bytesToIntLE_intToBytesLE (w : Nat) (i : Int) (hw : 0 < w)
    (hlo : -(2 ^ (8 * w - 1)) ≤ i) (hhi : i < 2 ^ (8 * w - 1)) :
    bytesToIntLE (intToBytesLE w i) = i := by
  have hmod : (2 : Int) ^ (8 * w) = ((2 ^ (8 * w) : Nat) : Int) := by push_cast; ring
  have hpow_eq : (256 : Nat) ^ w = 2 ^ (8 * w) := by
    rw [show (256 : Nat) = 2 ^ 8 from rfl, ← pow_mul]
  have hsplit : 8 * w = (8 * w - 1) + 1 := by omega
  have hhalf : (2 : Nat) ^ (8 * w) = 2 ^ (8 * w - 1) * 2 := by
    conv_lhs => rw [hsplit]
    rw [pow_succ]
  -- the value written: i modulo 2^(8w), landing in [0, 2^(8w))
  have hm_nonneg : 0 ≤ i % ((2 : Int) ^ (8 * w)) :=
    Int.emod_nonneg _ (by positivity)
  have hm_lt : i % ((2 : Int) ^ (8 * w)) < (2 : Int) ^ (8 * w) :=
    Int.emod_lt_of_pos _ (by positivity)
  set m : Nat := (i % ((2 : Int) ^ (8 * w))).toNat with hm_def
  have hm_cast : (m : Int) = i % ((2 : Int) ^ (8 * w)) := Int.toNat_of_nonneg hm_nonneg
  have hm_lt_nat : m < 2 ^ (8 * w) := by
    have := hm_lt
    rw [← hm_cast] at this
    exact_mod_cast (by push_cast at this ⊢; omega : (m : Int) < ((2 ^ (8 * w) : Nat) : Int))
  have hlen : (intToBytesLE w i).length = w := natToBytesLE_length w m
  have hround : bytesToNatLE (intToBytesLE w i) = m := by
    apply bytesToNatLE_natToBytesLE
    rw [hpow_eq]
    exact hm_lt_nat
  unfold bytesToIntLE
  rw [hlen, hround]
  by_cases hpos : 0 ≤ i
  · -- nonnegative: i % 2^(8w) = i, and i < 2^(8w-1)
    have hi_mod : i % ((2 : Int) ^ (8 * w)) = i := by
      apply Int.emod_eq_of_lt hpos
      calc i < 2 ^ (8 * w - 1) := hhi
        _ ≤ (2 : Int) ^ (8 * w) := by
            apply pow_le_pow_right₀ (by norm_num)
            omega
    have hm_eq : (m : Int) = i := by rw [hm_cast, hi_mod]
    have hm_small : m < 2 ^ (8 * w - 1) := by
      have : (m : Int) < ((2 ^ (8 * w - 1) : Nat) : Int) := by
        rw [hm_eq]; exact_mod_cast (by push_cast; exact hhi)
      exact_mod_cast this
    simp only [if_pos hm_small]
    exact hm_eq
  · -- negative: i % 2^(8w) = i + 2^(8w), landing in the upper half
    push_neg at hpos
    have hi_mod : i % ((2 : Int) ^ (8 * w)) = i + (2 : Int) ^ (8 * w) := by
      have h1 : i % ((2 : Int) ^ (8 * w)) = (i + (2 : Int) ^ (8 * w)) % ((2 : Int) ^ (8 * w)) := by
        rw [show i + (2 : Int) ^ (8 * w) = i + (2 : Int) ^ (8 * w) * 1 by ring,
          Int.add_mul_emod_self_left]
      rw [h1]
      apply Int.emod_eq_of_lt
      · have : -((2 : Int) ^ (8 * w)) ≤ i := by
          calc -((2 : Int) ^ (8 * w)) ≤ -(2 ^ (8 * w - 1)) := by
                apply neg_le_neg
                apply pow_le_pow_right₀ (by norm_num)
                omega
            _ ≤ i := hlo
        omega
      · omega
    have hm_eq : (m : Int) = i + (2 : Int) ^ (8 * w) := by rw [hm_cast, hi_mod]
    have hhalf_int : (2 : Int) ^ (8 * w) = 2 ^ (8 * w - 1) * 2 := by
      conv_lhs => rw [show 8 * w = (8 * w - 1) + 1 from hsplit]
      rw [pow_succ]
    have hm_big : ¬ m < 2 ^ (8 * w - 1) := by
      intro hcon
      have : (m : Int) < ((2 ^ (8 * w - 1) : Nat) : Int) := by exact_mod_cast hcon
      rw [hm_eq] at this
      push_cast at this
      omega
    simp only [if_neg hm_big]
    have : ((2 ^ (8 * w) : Nat) : Int) = (2 : Int) ^ (8 * w) := by push_cast; ring
    omega

theorem readBytes_append (w : Nat) (l r : List Nat) (h : l.length = w) :
    readBytes w (l ++ r) = some (l, r) := by
  unfold readBytes
  rw [if_pos (by simp [h])]
  subst h
  rw [List.take_left, List.drop_left]

theorem readBytes_some_length {w : Nat} {bs l r : List Nat}
    (h : readBytes w bs = some (l, r)) : bs.length = w + r.length ∧ l.length = w := by
  unfold readBytes at h
  split at h
  · rename_i hle
    injection h with h'
    injection h' with h1 h2
    subst h1; subst h2
    constructor
    · simp [List.length_drop]; omega
    · simp [List.length_take]; omega
  · exact absurd h (by simp)

/-! ## Block header data model (`src/ledger/src/block/block_header.rs`) -/

/-- Width in bytes of a `BlockHeaderHash` (a 32-byte digest). -/
def BlockHeaderHash.size : Nat := 32

/-- Width in bytes of a `PedersenMerkleRoot` (a 32-byte digest). -/
def PedersenMerkleRoot.size : Nat := 32

/-- Width in bytes of a `MerkleRoot` (a 32-byte digest). -/
def MerkleRoot.size : Nat := 32

/-- Modelled from the spec: `BlockHeaderMetadata` (its layout lives outside
`src/`) holds `timestamp : i64`, `difficulty_target : u64`, `nonce : u32`,
a fixed 20-byte record.  The timestamp is an integer, the other two fields
natural numbers bounded by their widths (enforced by `BlockHeader.wf`). -/
structure BlockHeaderMetadata where
  timestamp : Int
  difficulty_target : Nat
  nonce : Nat
deriving DecidableEq

/-- Width in bytes of the metadata record: 8 + 8 + 4 = 20. -/
def BlockHeaderMetadata.size : Nat := 20

/-- Modelled from the spec: the metadata's canonical encoding writes
`timestamp`, `difficulty_target`, `nonce`, each little-endian fixed-width. -/
def BlockHeaderMetadata.write_le (m : BlockHeaderMetadata) : List Nat :=
  intToBytesLE 8 m.timestamp ++ natToBytesLE 8 m.difficulty_target ++
    natToBytesLE 4 m.nonce

/-- Modelled from the spec: decoding the metadata reads the same three
fields in the same order, failing when fewer bytes remain than a field's
declared width. -/
def BlockHeaderMetadata.read_le (bs : List Nat) :
    Option (BlockHeaderMetadata × List Nat) := do
  let (ts, bs) ← readBytes 8 bs
  let (dt, bs) ← readBytes 8 bs
  let (n, bs) ← readBytes 4 bs
  pure (⟨bytesToIntLE ts, bytesToNatLE dt, bytesToNatLE n⟩, bs)

/-- The block header, embedding the Rust struct `BlockHeader<N>`:
digest fields are byte strings, the proof is an opaque fixed-size blob
whose width is the active network's `ProofOfSuccinctWork::<N>::size()`
(a parameter `psize` of the codec functions below). -/
structure BlockHeader where
  previous_block_hash : List Nat
  transactions_root : List Nat
  commitments_root : List Nat
  serial_numbers_root : List Nat
  metadata : BlockHeaderMetadata
  proof : List Nat
deriving DecidableEq

/-- Well-formedness of a header for proof width `psize`: every field has its
declared width, bytes are bytes, and the metadata's numeric fields fit
their machine widths. -/
def BlockHeader.wf (psize : Nat) (h : BlockHeader) : Prop :=
  h.previous_block_hash.length = 32 ∧
  h.transactions_root.length = 32 ∧
  h.commitments_root.length = 32 ∧
  h.serial_numbers_root.length = 32 ∧
  h.proof.length = psize ∧
  (∀ b ∈ h.previous_block_hash, b < 256) ∧
  (∀ b ∈ h.transactions_root, b < 256) ∧
  (∀ b ∈ h.commitments_root, b < 256) ∧
  (∀ b ∈ h.serial_numbers_root, b < 256) ∧
  (∀ b ∈ h.proof, b < 256) ∧
  -(2 ^ 63) ≤ h.metadata.timestamp ∧ h.metadata.timestamp < 2 ^ 63 ∧
  h.metadata.difficulty_target < 2 ^ 64 ∧
  h.metadata.nonce < 2 ^ 32

instance (psize : Nat) (h : BlockHeader) : Decidable (BlockHeader.wf psize h) := by
  unfold BlockHeader.wf
  infer_instance

/-- The `ToBytes::write_le` encoding of `BlockHeader`: fields in declared order —
previous hash, transactions root, commitments root, serial-numbers root,
metadata, proof bytes — with no padding and no length prefixes. -/
def BlockHeader.write_le (h : BlockHeader) : List Nat :=
  h.previous_block_hash ++ h.transactions_root ++ h.commitments_root ++
    h.serial_numbers_root ++ h.metadata.write_le ++ h.proof

/-- The `FromBytes::read_le` decoding of `BlockHeader`: reads the same fields in the
same order, failing when fewer bytes remain than the next field's width. -/
def BlockHeader.read_le (psize : Nat) (bs : List Nat) :
    Option (BlockHeader × List Nat) := do
  let (previous_block_hash, bs) ← readBytes 32 bs
  let (transactions_root, bs) ← readBytes 32 bs
  let (commitments_root, bs) ← readBytes 32 bs
  let (serial_numbers_root, bs) ← readBytes 32 bs
  let (metadata, bs) ← BlockHeaderMetadata.read_le bs
  let (proof, bs) ← readBytes psize bs
  pure (⟨previous_block_hash, transactions_root, commitments_root,
    serial_numbers_root, metadata, proof⟩, bs)

/-- Rust `BlockHeader::size()`: the sum of the constituent field widths. -/
def BlockHeader.size (psize : Nat) : Nat :=
  BlockHeaderHash.size + PedersenMerkleRoot.size + MerkleRoot.size +
    MerkleRoot.size + BlockHeaderMetadata.size + psize

/-- Proof width of the reference network parameterization
(`ProofOfSuccinctWork` blob), giving the documented 919-byte header. -/
def referenceProofSize : Nat := 771

/-- Rust `BlockHeader::is_genesis()`: timestamp is zero OR the previous block
hash is the all-zero 32-byte hash. -/
def BlockHeader.is_genesis (h : BlockHeader) : Bool :=
  h.metadata.timestamp == 0 || h.previous_block_hash == List.replicate 32 0

theorem metadata_write_le_length (m : BlockHeaderMetadata) :
    m.write_le.length = 20 := by
  simp [BlockHeaderMetadata.write_le, intToBytesLE, natToBytesLE_length]

theorem metadata_read_le_write_le (m : BlockHeaderMetadata)
    (rest : List Nat)
    (hts_lo : -(2 ^ 63) ≤ m.timestamp) (hts_hi : m.timestamp < 2 ^ 63)
    (hdt : m.difficulty_target < 2 ^ 64) (hn : m.nonce < 2 ^ 32) :
    BlockHeaderMetadata.read_le (m.write_le ++ rest) = some (m, rest) := by
  unfold BlockHeaderMetadata.write_le BlockHeaderMetadata.read_le
  rw [List.append_assoc, List.append_assoc,
    readBytes_append 8 _ _ (by simp [intToBytesLE, natToBytesLE_length])]
  simp only [Option.bind_eq_bind, Option.some_bind]
  rw [readBytes_append 8 _ _ (natToBytesLE_length 8 _)]
  simp only [Option.some_bind]
  rw [readBytes_append 4 _ _ (natToBytesLE_length 4 _)]
  simp only [Option.some_bind]
  rw [bytesToIntLE_intToBytesLE 8 m.timestamp (by norm_num)
      (by norm_num at hts_lo ⊢; exact hts_lo) (by norm_num at hts_hi ⊢; exact hts_hi),
    bytesToNatLE_natToBytesLE 8 _ (by norm_num at hdt ⊢; exact hdt),
    bytesToNatLE_natToBytesLE 4 _ (by norm_num at hn ⊢; exact hn)]
  rfl

theorem BlockHeader.write_le_length {psize : Nat} (h : BlockHeader)
    (hwf : h.wf psize) : h.write_le.length = BlockHeader.size psize := by
  obtain ⟨h1, h2, h3, h4, h5, -⟩ := hwf
  simp only [BlockHeader.write_le, BlockHeader.size, BlockHeaderHash.size,
    PedersenMerkleRoot.size, MerkleRoot.size, BlockHeaderMetadata.size,
    List.length_append, metadata_write_le_length, h1, h2, h3, h4, h5]

theorem BlockHeader.read_le_write_le {psize : Nat} (h : BlockHeader)
    (hwf : h.wf psize) :
    BlockHeader.read_le psize h.write_le = some (h, []) := by
  obtain ⟨h1, h2, h3, h4, h5, -, -, -, -, -, hts_lo, hts_hi, hdt, hn⟩ := hwf
  unfold BlockHeader.write_le BlockHeader.read_le
  rw [List.append_assoc, List.append_assoc, List.append_assoc, List.append_assoc,
    readBytes_append 32 _ _ h1]
  simp only [Option.bind_eq_bind, Option.some_bind]
  rw [readBytes_append 32 _ _ h2]
  simp only [Option.some_bind]
  rw [readBytes_append 32 _ _ h3]
  simp only [Option.some_bind]
  rw [readBytes_append 32 _ _ h4]
  simp only [Option.some_bind]
  rw [metadata_read_le_write_le h.metadata _ hts_lo hts_hi hdt hn]
  simp only [Option.some_bind]
  rw [show h.proof = h.proof ++ [] by simp, readBytes_append psize _ _ (by simpa using h5)]
  rfl

theorem metadata_read_le_some_length {bs : List Nat}
    {m : BlockHeaderMetadata} {rest : List Nat}
    (h : BlockHeaderMetadata.read_le bs = some (m, rest)) :
    bs.length = 20 + rest.length := by
  unfold BlockHeaderMetadata.read_le at h
  simp only [Option.bind_eq_bind, Option.bind_eq_some, Option.pure_def,
    Option.some.injEq, Prod.mk.injEq] at h
  obtain ⟨⟨ts, bs1⟩, hp1, ⟨dt, bs2⟩, hp2, ⟨n, bs3⟩, hp3, -, hrest⟩ := h
  have l1 : bs.length = 8 + bs1.length := (readBytes_some_length hp1).1
  have l2 : bs1.length = 8 + bs2.length := (readBytes_some_length hp2).1
  have l3 : bs2.length = 4 + bs3.length := (readBytes_some_length hp3).1
  subst hrest
  show bs.length = 20 + bs3.length
  omega

theorem BlockHeader.read_le_some_length {psize : Nat} {bs : List Nat}
    {h : BlockHeader} {rest : List Nat}
    (hr : BlockHeader.read_le psize bs = some (h, rest)) :
    bs.length = BlockHeader.size psize + rest.length := by
  unfold BlockHeader.read_le at hr
  simp only [Option.bind_eq_bind, Option.bind_eq_some, Option.pure_def,
    Option.some.injEq, Prod.mk.injEq] at hr
  obtain ⟨⟨f1, bs1⟩, hp1, ⟨f2, bs2⟩, hp2, ⟨f3, bs3⟩, hp3, ⟨f4, bs4⟩, hp4,
    ⟨md, bs5⟩, hp5, ⟨pf, bs6⟩, hp6, -, hrest⟩ := hr
  have l1 : bs.length = 32 + bs1.length := (readBytes_some_length hp1).1
  have l2 : bs1.length = 32 + bs2.length := (readBytes_some_length hp2).1
  have l3 : bs2.length = 32 + bs3.length := (readBytes_some_length hp3).1
  have l4 : bs3.length = 32 + bs4.length := (readBytes_some_length hp4).1
  have l5 : bs4.length = 20 + bs5.length := metadata_read_le_some_length hp5
  have l6 : bs5.length = psize + bs6.length := (readBytes_some_length hp6).1
  subst hrest
  show bs.length = BlockHeader.size psize + bs6.length
  simp only [BlockHeader.size, BlockHeaderHash.size,
    PedersenMerkleRoot.size, MerkleRoot.size, BlockHeaderMetadata.size]
  omega

/-! ## Proof-of-work miner and header construction -/

/-- Outcome of the nonce search: terminal states of the miner. -/
inductive MineResult where
  | found (nonce : Nat) (proof : List Nat)
  | exhausted
deriving DecidableEq

/-- Modelled from the spec: `PoswMarlin::mine` (outside `src/`) repeatedly
draws a nonce within `[0, max_nonce)` from the randomness source, invokes
the external proof-generation service on `(subroots, nonce)`, derives a
deterministic score from the proof bytes, stops in `found` when
`score ≤ difficulty_target`, and stops in `exhausted` when the nonce
space is exhausted without success.  `proofGen` is the external service
already applied to the subroots; `draws` is the randomness source's
stream of draws, each reduced into the nonce range. -/
def mine (proofGen : Nat → List Nat) (score : List Nat → Nat)
    (difficulty_target : Nat) (max_nonce : Nat) : List Nat → MineResult
  | [] => .exhausted
  | d :: ds =>
    if max_nonce = 0 then .exhausted
    else
      let nonce := d % max_nonce
      let proof := proofGen nonce
      if score proof ≤ difficulty_target then .found nonce proof
      else mine proofGen score difficulty_target max_nonce ds

/-- Errors surfaced by header construction. -/
inductive HeaderError where
  | programmerError
  | miningExhausted
  | malformedProof
  | genesisConstructionFailed
deriving DecidableEq

/-- The external collaborators `BlockHeader::new` depends on, gathered as an
injected capability object (the network parameterization): the proof width,
the transaction-tree builder (`txids_to_roots`, returning the transactions
root and the subroots), the proof-generation service and the score
derivation used by the miner.  Transactions are their id digests. -/
structure NetworkModel where
  psize : Nat
  txidsToRoots : List (List Nat) → List Nat × List (List Nat)
  proofGen : List (List Nat) → Nat → List Nat
  score : List Nat → Nat

/-- Process-wide mining state: how many times the heavyweight proof-system
parameter object (`PoswMarlin::load`) has been constructed. -/
structure MiningState where
  loads : Nat
deriving DecidableEq

/-- Rust `PoswMarlin::load()`: constructs the heavyweight parameter object.
In the source it is invoked inside `BlockHeader::new` (with a TODO noting
it should become a static `once_cell`), so each invocation is one more
construction. -/
def PoswMarlin.load (st : MiningState) : MiningState :=
  { loads := st.loads + 1 }

/-- Rust `BlockHeader::new`, state-threaded to record constructions of the
parameter object: reject an empty transaction set, build the transaction
roots, load the prover, mine, parse the returned proof bytes at the fixed
width, and assemble the header. -/
def BlockHeader.newSt (M : NetworkModel) (previous_block_hash : List Nat)
    (transactions : List (List Nat))
    (commitments_root serial_numbers_root : List Nat)
    (timestamp : Int) (difficulty_target : Nat) (max_nonce : Nat)
    (draws : List Nat) (st : MiningState) :
    Except HeaderError BlockHeader × MiningState :=
  if transactions.isEmpty then (.error .programmerError, st)
  else
    let (transactions_root, subroots) := M.txidsToRoots transactions
    let st := PoswMarlin.load st
    match mine (M.proofGen subroots) M.score difficulty_target max_nonce draws with
    | .exhausted => (.error .miningExhausted, st)
    | .found nonce proof =>
      match readBytes M.psize proof with
      | none => (.error .malformedProof, st)
      | some (proofBytes, _) =>
        (.ok ⟨previous_block_hash, transactions_root, commitments_root,
          serial_numbers_root, ⟨timestamp, difficulty_target, nonce⟩,
          proofBytes⟩, st)

/-- Rust `BlockHeader::new` as seen by a caller (the mining state dropped). -/
def BlockHeader.new (M : NetworkModel) (previous_block_hash : List Nat)
    (transactions : List (List Nat))
    (commitments_root serial_numbers_root : List Nat)
    (timestamp : Int) (difficulty_target : Nat) (max_nonce : Nat)
    (draws : List Nat) : Except HeaderError BlockHeader :=
  (BlockHeader.newSt M previous_block_hash transactions commitments_root
    serial_numbers_root timestamp difficulty_target max_nonce draws ⟨0⟩).1

/-- The genesis-specific collaborators of `new_genesis` (outside `src/`):
the record-commitment Merkle tree roots over the block's own transaction
commitments and serial numbers. -/
structure GenesisModel where
  commitmentsRoot : List (List Nat) → List Nat
  serialNumbersRoot : List (List Nat) → List Nat

/-- Rust `BlockHeader::new_genesis`: all-zero previous hash, per-block
commitments and serial-numbers roots, `timestamp = 0`,
`difficulty_target = u64::MAX`, `max_nonce = u32::MAX`, then the
defensive genesis check. -/
def BlockHeader.new_genesis (M : NetworkModel) (G : GenesisModel)
    (transactions : List (List Nat)) (draws : List Nat) :
    Except HeaderError BlockHeader :=
  let previous_block_hash := List.replicate 32 0
  let commitments_root := G.commitmentsRoot transactions
  let serial_numbers_root := G.serialNumbersRoot transactions
  match BlockHeader.new M previous_block_hash transactions commitments_root
      serial_numbers_root 0 (2 ^ 64 - 1) (2 ^ 32 - 1) draws with
  | .error e => .error e
  | .ok block_header =>
    match block_header.is_genesis with
    | true => .ok block_header
    | false => .error .genesisConstructionFailed

/-! ## Prover solution and its dual-mode codec
(`src/synthesizer/src/coinbase_puzzle/helpers/prover_solution/serialize.rs`) -/

/-- The `PartialSolution` struct: prover address, `u64` nonce, and the puzzle
commitment; the address and commitment are opaque byte strings. -/
structure PartialSolution where
  address : List Nat
  nonce : Nat
  commitment : List Nat
deriving DecidableEq

/-- The `KZGProof` struct: commitment `w` (opaque bytes) and an optional blinding
scalar `random_v`. -/
structure KZGProof where
  w : List Nat
  random_v : Option Nat
deriving DecidableEq

/-- The `ProverSolution` struct: a partial solution together with its KZG proof. -/
structure ProverSolution where
  partial_solution : PartialSolution
  proof : KZGProof
deriving DecidableEq

/-- Modelled from the spec: the canonical byte encoding of the full
structure (`ToBytes`, outside `src/`): the partial solution's fields in
order, then the proof's `w`, then the optional `random_v` behind a
presence flag byte. -/
def ProverSolution.to_bytes_le (s : ProverSolution) : List Nat :=
  s.partial_solution.address ++ natToBytesLE 8 s.partial_solution.nonce ++
    s.partial_solution.commitment ++ s.proof.w ++
    (match s.proof.random_v with
     | none => [0]
     | some v => 1 :: natToBytesLE 32 v)

/-- Modelled from the spec: `ToBytesSerializer::serialize_with_size_encoding`
(outside `src/`) wraps the canonical byte encoding with the system's
explicit 8-byte little-endian size-prefix framing. -/
def serialize_with_size_encoding (s : ProverSolution) : List Nat :=
  natToBytesLE 8 s.to_bytes_le.length ++ s.to_bytes_le

/-- A JSON value, the target of the human-readable mode.  Objects keep
their fields in order. -/
inductive Json where
  | null
  | num (n : Nat)
  | arr (xs : List Json)
  | obj (fields : List (String × Json))

/-- A byte string as a JSON array of numbers. -/
def jsonOfBytes (bs : List Nat) : Json :=
  .arr (bs.map .num)

/-- Recover a byte string from a JSON array of numbers. -/
def jsonBytes : Json → Option (List Nat)
  | .arr xs => xs.mapM fun j => match j with | .num b => some b | _ => none
  | _ => none

/-- Modelled from the spec: the `PartialSolution` component encoder used
under the `"partial_solution"` key (its own `Serialize`, outside `src/`). -/
def PartialSolution.toJson (ps : PartialSolution) : Json :=
  .arr [jsonOfBytes ps.address, .num ps.nonce, jsonOfBytes ps.commitment]

/-- Modelled from the spec: the matching `PartialSolution` decoder. -/
def PartialSolution.fromJson : Json → Option PartialSolution
  | .arr [a, .num n, c] => do
    let address ← jsonBytes a
    let commitment ← jsonBytes c
    pure ⟨address, n, commitment⟩
  | _ => none

/-- Modelled from the spec: `DeserializeExt::take_from_value` (outside
`src/`) removes the named key from a JSON object and returns its value,
failing when the key is absent. -/
def takeFromValue (key : String) : Json → Option (Json × Json)
  | .obj fields =>
    match fields.lookup key with
    | some v => some (v, .obj (fields.eraseP fun kv => kv.1 == key))
    | none => none
  | _ => none

/-- Rust `prover_solution.get_mut("proof.random_v").unwrap_or(Null).take()`:
the value under the key, or JSON null when the key is absent. -/
def getOrNull (key : String) : Json → Json
  | .obj fields => ((fields.lookup key).getD .null)
  | _ => .null

/-- Modelled from the spec: `serde_json::from_value` for the optional
blinding scalar — JSON null decodes to `none`, a number to `some`. -/
def optionScalarFromJson : Json → Option (Option Nat)
  | .null => some none
  | .num v => some (some v)
  | _ => none

/-- Human-readable serialization (`Serialize` for `ProverSolution`,
`is_human_readable` branch): an ordered field map with keys
`"partial_solution"`, `"proof.w"`, and — only when `random_v` is
present — `"proof.random_v"`. -/
def ProverSolution.serializeHR (s : ProverSolution) : List (String × Json) :=
  [("partial_solution", s.partial_solution.toJson),
   ("proof.w", jsonOfBytes s.proof.w)] ++
  (match s.proof.random_v with
   | some v => [("proof.random_v", .num v)]
   | none => [])

/-- Human-readable deserialization (`Deserialize` for `ProverSolution`,
`is_human_readable` branch): take `"partial_solution"`, take `"proof.w"`,
then read `"proof.random_v"` defaulting an absent key to JSON null. -/
def ProverSolution.deserializeHR (j : Json) : Option ProverSolution := do
  let (psJ, j) ← takeFromValue "partial_solution" j
  let ps ← PartialSolution.fromJson psJ
  let (wJ, j) ← takeFromValue "proof.w" j
  let w ← jsonBytes wJ
  let random_v ← optionScalarFromJson (getOrNull "proof.random_v" j)
  pure ⟨ps, ⟨w, random_v⟩⟩

theorem jsonBytes_jsonOfBytes (bs : List Nat) : jsonBytes (jsonOfBytes bs) = some bs := by
  induction bs with
  | nil => rfl
  | cons b bs ih =>
    simp only [jsonOfBytes, jsonBytes, List.map_cons, List.mapM_cons] at ih ⊢
    rw [show (Option.some b : Option Nat) = pure b from rfl]
    simp only [pure_bind]
    rw [show ((bs.map Json.num).mapM fun j => match j with | .num b => some b | _ => none)
        = some bs from ih]
    rfl

theorem PartialSolution.fromJson_toJson (ps : PartialSolution) :
    PartialSolution.fromJson ps.toJson = some ps := by
  simp only [PartialSolution.toJson, PartialSolution.fromJson,
    jsonBytes_jsonOfBytes, Option.bind_eq_bind, Option.some_bind]
  rfl

/-! ## Concrete instances used by witnesses and counterexamples -/

/-- A small concrete network parameterization (proof width 2). -/
def Mex : NetworkModel :=
  { psize := 2
    txidsToRoots := fun _ => ([7, 7], [[1]])
    proofGen := fun _ n => [n % 256, 1]
    score := bytesToNatLE }

/-- A degenerate network parameterization whose transaction-tree builder
returns the all-zero root and whose score is always zero. -/
def Mdeg : NetworkModel :=
  { psize := 1
    txidsToRoots := fun _ => (List.replicate 32 0, [])
    proofGen := fun _ _ => [0]
    score := fun _ => 0 }

/-- Degenerate genesis collaborators returning all-zero roots. -/
def Gdeg : GenesisModel :=
  { commitmentsRoot := fun _ => List.replicate 32 0
    serialNumbersRoot := fun _ => List.replicate 32 0 }

/-- A concrete well-formed header with proof width 3. -/
def hdr0 : BlockHeader :=
  ⟨List.replicate 32 1, List.replicate 32 2, List.replicate 32 3,
    List.replicate 32 4, ⟨-5, 6, 7⟩, [8, 9, 10]⟩

/-- A concrete header with zero timestamp and a non-zero previous hash. -/
def hdrTs0 : BlockHeader :=
  ⟨List.replicate 32 9, List.replicate 32 2, List.replicate 32 3,
    List.replicate 32 4, ⟨0, 6, 7⟩, [8]⟩

/-! ## Claim theorems -/

/-- C1: for every subroots input, difficulty target, max nonce and
randomness source, the mining step either finds `(nonce, proof)` with
`score proof ≤ difficulty_target` and `nonce < max_nonce`, or ends
exhausted — and when it ends exhausted, `BlockHeader::new` fails with the
mining-exhausted error; it never returns a pair violating the score
bound. -/
theorem mine_sound (M : NetworkModel) (difficulty_target max_nonce : Nat)
    (draws : List Nat) :
    (∀ subroots,
      mine (M.proofGen subroots) M.score difficulty_target max_nonce draws
        = .exhausted ∨
      ∃ nonce proof,
        mine (M.proofGen subroots) M.score difficulty_target max_nonce draws
          = .found nonce proof ∧
        M.score proof ≤ difficulty_target ∧ nonce < max_nonce) ∧
    (∀ prev txs cr snr ts, txs.isEmpty = false →
      mine (M.proofGen (M.txidsToRoots txs).2) M.score difficulty_target
        max_nonce draws = .exhausted →
      BlockHeader.new M prev txs cr snr ts difficulty_target max_nonce draws
        = .error .miningExhausted) := by
  constructor
  · intro subroots
    induction draws with
    | nil => left; rfl
    | cons d ds ih =>
      by_cases h0 : max_nonce = 0
      · left; simp [mine, h0]
      · by_cases hs :
          M.score (M.proofGen subroots (d % max_nonce)) ≤ difficulty_target
        · right
          exact ⟨d % max_nonce, M.proofGen subroots (d % max_nonce),
            by simp [mine, h0, hs], hs, Nat.mod_lt _ (Nat.pos_of_ne_zero h0)⟩
        · simpa [mine, h0, hs] using ih
  · intro prev txs cr snr ts hne hmine
    unfold BlockHeader.new BlockHeader.newSt
    rcases hroots : M.txidsToRoots txs with ⟨troot, subroots⟩
    rw [hroots] at hmine
    simp only [hne, Bool.false_eq_true, if_false, hroots, hmine]

/-- C1 witness: a concrete exhausted run surfaces the mining-exhausted
error from header construction. -/
theorem mine_sound_witness :
    ([[1]] : List (List Nat)).isEmpty = false ∧
    BlockHeader.new Mex [0] [[1]] [2] [3] 7 0 0 [5]
      = .error .miningExhausted :=
  ⟨rfl, (mine_sound Mex 0 0 [5]).2 [0] [[1]] [2] [3] 7 rfl rfl⟩

/-- C2: for every well-formed header (fields of the declared widths and
numeric fields within their machine ranges), decoding the canonical
encoding yields the header back, with no bytes left over. -/
theorem read_le_write_le_roundtrip (psize : Nat) (h : BlockHeader)
    (hwf : h.wf psize) :
    BlockHeader.read_le psize h.write_le = some (h, []) :=
  BlockHeader.read_le_write_le h hwf

/-- C2 witness: the round trip evaluated on a concrete header. -/
theorem read_le_write_le_roundtrip_witness :
    hdr0.wf 3 ∧ BlockHeader.read_le 3 hdr0.write_le = some (hdr0, []) :=
  ⟨by decide, read_le_write_le_roundtrip 3 hdr0 (by decide)⟩

/-- C3: `is_genesis` is exactly the disjunction `timestamp == 0 OR
previous_block_hash == all-zero`; an all-zero previous hash makes a
header genesis regardless of its timestamp, and a zero timestamp does so
regardless of the previous hash. -/
theorem is_genesis_iff (h : BlockHeader) :
    (h.is_genesis = true ↔
      (h.metadata.timestamp = 0 ∨ h.previous_block_hash = List.replicate 32 0)) ∧
    (h.previous_block_hash = List.replicate 32 0 → h.is_genesis = true) ∧
    (h.metadata.timestamp = 0 → h.is_genesis = true) := by
  refine ⟨?_, ?_, ?_⟩
  · simp [BlockHeader.is_genesis]
  · intro hp; simp [BlockHeader.is_genesis, hp]
  · intro ht; simp [BlockHeader.is_genesis, ht]

/-- C3 witness: a zero-timestamp header with a non-zero previous hash is
genesis. -/
theorem is_genesis_iff_witness : hdrTs0.is_genesis = true :=
  (is_genesis_iff hdrTs0).2.2 rfl

/-- C5: the canonical encoding of every well-formed header has exactly
`BlockHeader::size()` bytes, which is the sum of the constituent field
widths, 919 bytes for the reference parameterization. -/
theorem write_le_length_eq_size (psize : Nat) (h : BlockHeader)
    (hwf : h.wf psize) :
    h.write_le.length = BlockHeader.size psize ∧
    BlockHeader.size psize = 32 + 32 + 32 + 32 + 20 + psize ∧
    BlockHeader.size referenceProofSize = 919 :=
  ⟨BlockHeader.write_le_length h hwf, rfl, rfl⟩

/-- C5 witness: the length law evaluated on a concrete header. -/
theorem write_le_length_eq_size_witness :
    hdr0.wf 3 ∧
    (hdr0.write_le.length = BlockHeader.size 3 ∧
      BlockHeader.size 3 = 32 + 32 + 32 + 32 + 20 + 3 ∧
      BlockHeader.size referenceProofSize = 919) :=
  ⟨by decide, write_le_length_eq_size 3 hdr0 (by decide)⟩

/-- C6: every input shorter than the declared header width fails to
decode — no field is ever silently defaulted. -/
theorem read_le_short_input (psize : Nat) (bs : List Nat)
    (hshort : bs.length < BlockHeader.size psize) :
    BlockHeader.read_le psize bs = none := by
  by_contra hc
  obtain ⟨⟨h, rest⟩, hr⟩ := Option.ne_none_iff_exists'.mp hc
  have := BlockHeader.read_le_some_length hr
  omega

/-- C6 witness: a three-byte input is rejected at the reference width. -/
theorem read_le_short_input_witness :
    ([0, 1, 2] : List Nat).length < BlockHeader.size referenceProofSize ∧
    BlockHeader.read_le referenceProofSize [0, 1, 2] = none :=
  ⟨by decide, read_le_short_input referenceProofSize [0, 1, 2] (by decide)⟩

/-- C7: the size-prefixed compact encoding of a prover solution, with its
leading 8 bytes stripped, is byte-identical to the raw canonical
encoding (and the 8 stripped bytes are the little-endian length). -/
theorem size_encoding_strip_eq_raw (s : ProverSolution) :
    (serialize_with_size_encoding s).drop 8 = s.to_bytes_le ∧
    (serialize_with_size_encoding s).take 8
      = natToBytesLE 8 s.to_bytes_le.length := by
  constructor
  · unfold serialize_with_size_encoding
    rw [List.drop_left' (natToBytesLE_length 8 _)]
  · unfold serialize_with_size_encoding
    rw [List.take_left' (natToBytesLE_length 8 _)]

theorem BlockHeader.newSt_ok {M : NetworkModel} {prev : List Nat}
    {txs : List (List Nat)} {cr snr : List Nat} {ts : Int} {dt mn : Nat}
    {draws : List Nat} {st : MiningState} {h : BlockHeader}
    (hok : (BlockHeader.newSt M prev txs cr snr ts dt mn draws st).1 = .ok h) :
    h.previous_block_hash = prev ∧ h.transactions_root = (M.txidsToRoots txs).1 ∧
    h.commitments_root = cr ∧ h.serial_numbers_root = snr ∧
    h.metadata.timestamp = ts ∧ h.metadata.difficulty_target = dt := by
  unfold BlockHeader.newSt at hok
  rcases hroots : M.txidsToRoots txs with ⟨troot, subroots⟩
  rw [hroots] at hok
  by_cases hne : txs.isEmpty
  · simp [hne] at hok
  · simp only [hne, Bool.false_eq_true, if_false] at hok
    rcases hmine : mine (M.proofGen subroots) M.score dt mn draws with
      ⟨nonce, proof⟩ | _
    · rw [hmine] at hok
      dsimp only at hok
      rcases hread : readBytes M.psize proof with _ | ⟨pb, rest⟩
      · rw [hread] at hok; exact absurd hok (by simp)
      · rw [hread] at hok
        simp only [Prod.fst, Except.ok.injEq] at hok
        subst hok
        simp [hroots]
    · rw [hmine] at hok
      exact absurd hok (by simp)

theorem BlockHeader.newSt_error {M : NetworkModel} {prev : List Nat}
    {txs : List (List Nat)} {cr snr : List Nat} {ts : Int} {dt mn : Nat}
    {draws : List Nat} {st : MiningState} {e : HeaderError}
    (herr : (BlockHeader.newSt M prev txs cr snr ts dt mn draws st).1 = .error e) :
    e ≠ .genesisConstructionFailed := by
  unfold BlockHeader.newSt at herr
  rcases hroots : M.txidsToRoots txs with ⟨troot, subroots⟩
  rw [hroots] at herr
  by_cases hne : txs.isEmpty
  · simp only [hne, if_true, Prod.fst, Except.error.injEq] at herr
    subst herr; intro hcon; cases hcon
  · simp only [hne, Bool.false_eq_true, if_false] at herr
    rcases hmine : mine (M.proofGen subroots) M.score dt mn draws with
      ⟨nonce, proof⟩ | _
    · rw [hmine] at herr
      dsimp only at herr
      rcases hread : readBytes M.psize proof with _ | ⟨pb, rest⟩
      · rw [hread] at herr
        simp only [Prod.fst, Except.error.injEq] at herr
        subst herr; intro hcon; cases hcon
      · rw [hread] at herr
        exact absurd herr (by simp)
    · rw [hmine] at herr
      simp only [Prod.fst, Except.error.injEq] at herr
      subst herr; intro hcon; cases hcon

/-- The header produced by `new_genesis` under the degenerate
parameterization `Mdeg`/`Gdeg` on transactions `[[1]]` and draw `[0]`. -/
def hdrDeg : BlockHeader :=
  ⟨List.replicate 32 0, List.replicate 32 0, List.replicate 32 0,
    List.replicate 32 0, ⟨0, 2 ^ 64 - 1, 0⟩, [0]⟩

/-- The header produced by `new_genesis` under `Mdeg`/`Gdeg` on
transactions `[[2]]` and draw `[1]`. -/
def hdrDeg2 : BlockHeader :=
  ⟨List.replicate 32 0, List.replicate 32 0, List.replicate 32 0,
    List.replicate 32 0, ⟨0, 2 ^ 64 - 1, 1⟩, [0]⟩

/-- C4 counterexample: `new_genesis` can succeed with an all-zero
transactions root — nothing in the construction checks the roots are
non-zero. -/
theorem new_genesis_zero_root :
    BlockHeader.new_genesis Mdeg Gdeg [[1]] [0] = .ok hdrDeg ∧
    hdrDeg.transactions_root = List.replicate 32 0 ∧
    hdrDeg.commitments_root = List.replicate 32 0 ∧
    hdrDeg.serial_numbers_root = List.replicate 32 0 :=
  ⟨rfl, rfl, rfl, rfl⟩

/-- C4 (amended): every header successfully returned by `new_genesis`
satisfies `is_genesis() = true`, all-zero previous hash, zero timestamp,
maximal difficulty target, and roots exactly as produced by the Merkle
builders (their non-zeroness depends on the builders, not on this code);
the post-construction genesis check never fires. -/
theorem new_genesis_spec (M : NetworkModel) (G : GenesisModel)
    (txs : List (List Nat)) (draws : List Nat) :
    BlockHeader.new_genesis M G txs draws ≠ .error .genesisConstructionFailed ∧
    ∀ h, BlockHeader.new_genesis M G txs draws = .ok h →
      h.is_genesis = true ∧
      h.previous_block_hash = List.replicate 32 0 ∧
      h.metadata.timestamp = 0 ∧
      h.metadata.difficulty_target = 2 ^ 64 - 1 ∧
      h.transactions_root = (M.txidsToRoots txs).1 ∧
      h.commitments_root = G.commitmentsRoot txs ∧
      h.serial_numbers_root = G.serialNumbersRoot txs := by
  simp only [BlockHeader.new_genesis]
  rcases hnew : BlockHeader.new M (List.replicate 32 0) txs (G.commitmentsRoot txs)
      (G.serialNumbersRoot txs) 0 (2 ^ 64 - 1) (2 ^ 32 - 1) draws with e | bh
  · have he : (BlockHeader.newSt M (List.replicate 32 0) txs (G.commitmentsRoot txs)
        (G.serialNumbersRoot txs) 0 (2 ^ 64 - 1) (2 ^ 32 - 1) draws ⟨0⟩).1
        = .error e := hnew
    have hne := BlockHeader.newSt_error he
    constructor
    · intro hcon
      simp only [Except.error.injEq] at hcon
      exact hne hcon
    · intro h hcon
      exact Except.noConfusion hcon
  · have hok : (BlockHeader.newSt M (List.replicate 32 0) txs (G.commitmentsRoot txs)
        (G.serialNumbersRoot txs) 0 (2 ^ 64 - 1) (2 ^ 32 - 1) draws ⟨0⟩).1
        = .ok bh := hnew
    obtain ⟨hprev, htroot, hcr, hsnr, hts, hdt⟩ := BlockHeader.newSt_ok hok
    have hgen : bh.is_genesis = true := by
      simp [BlockHeader.is_genesis, hts]
    dsimp only
    rw [hgen]
    constructor
    · intro hcon
      exact Except.noConfusion hcon
    · intro h hcon
      simp only [Except.ok.injEq] at hcon
      subst hcon
      exact ⟨hgen, hprev, hts, hdt, htroot, hcr, hsnr⟩

/-- C4 witness: the amended properties evaluated on a concrete run. -/
theorem new_genesis_spec_witness :
    BlockHeader.new_genesis Mdeg Gdeg [[2]] [1] ≠ .error .genesisConstructionFailed ∧
    (hdrDeg2.is_genesis = true ∧
      hdrDeg2.previous_block_hash = List.replicate 32 0 ∧
      hdrDeg2.metadata.timestamp = 0 ∧
      hdrDeg2.metadata.difficulty_target = 2 ^ 64 - 1 ∧
      hdrDeg2.transactions_root = (Mdeg.txidsToRoots [[2]]).1 ∧
      hdrDeg2.commitments_root = Gdeg.commitmentsRoot [[2]] ∧
      hdrDeg2.serial_numbers_root = Gdeg.serialNumbersRoot [[2]]) :=
  ⟨(new_genesis_spec Mdeg Gdeg [[2]] [1]).1,
   (new_genesis_spec Mdeg Gdeg [[2]] [1]).2 hdrDeg2 rfl⟩

/-- C8: the human-readable encoding is an ordered field map with exactly
the keys `"partial_solution"`, `"proof.w"` and — only when present —
`"proof.random_v"`; when `random_v` is absent the key is omitted entirely,
and a map lacking the key decodes with `random_v = none`. -/
theorem serializeHR_keys_and_absent_default (s : ProverSolution) :
    (s.serializeHR.map Prod.fst =
      ["partial_solution", "proof.w"] ++
        (match s.proof.random_v with
         | some _ => ["proof.random_v"]
         | none => [])) ∧
    (s.proof.random_v = none →
      s.serializeHR.map Prod.fst = ["partial_solution", "proof.w"]) ∧
    (∀ ps w, ProverSolution.deserializeHR
        (.obj [("partial_solution", ps.toJson), ("proof.w", jsonOfBytes w)])
      = some ⟨ps, ⟨w, none⟩⟩) := by
  refine ⟨?_, ?_, ?_⟩
  · rcases hrv : s.proof.random_v with _ | v <;>
      simp [ProverSolution.serializeHR, hrv]
  · intro hrv
    simp [ProverSolution.serializeHR, hrv]
  · intro ps w
    have h1 : takeFromValue "partial_solution"
        (.obj [("partial_solution", ps.toJson), ("proof.w", jsonOfBytes w)])
        = some (ps.toJson, .obj [("proof.w", jsonOfBytes w)]) := rfl
    have h2 : takeFromValue "proof.w" (.obj [("proof.w", jsonOfBytes w)] : Json)
        = some (jsonOfBytes w, .obj []) := rfl
    simp only [ProverSolution.deserializeHR, h1, h2, Option.bind_eq_bind,
      Option.some_bind, PartialSolution.fromJson_toJson, jsonBytes_jsonOfBytes]
    rfl

/-- A concrete partial solution used by witnesses. -/
def psEx : PartialSolution := ⟨[1, 2], 3, [4]⟩

/-- C8 witness: keys and absent-key decoding on a concrete solution. -/
theorem serializeHR_keys_witness :
    (ProverSolution.serializeHR ⟨psEx, ⟨[5], none⟩⟩).map Prod.fst
      = ["partial_solution", "proof.w"] ∧
    ProverSolution.deserializeHR
      (.obj [("partial_solution", psEx.toJson), ("proof.w", jsonOfBytes [5])])
      = some ⟨psEx, ⟨[5], none⟩⟩ :=
  ⟨(serializeHR_keys_and_absent_default ⟨psEx, ⟨[5], none⟩⟩).2.1 rfl,
   (serializeHR_keys_and_absent_default ⟨psEx, ⟨[5], none⟩⟩).2.2 psEx [5]⟩

/-- C9: the heavyweight parameter object is not memoized — each call to
header construction performs its own `PoswMarlin::load`, so two
successive calls construct it twice (the source's TODO marks the missing
`once_cell`). -/
theorem posw_load_per_call :
    ((BlockHeader.newSt Mex [0] [[1]] [2] [3] 5 10 4 [0]
        (BlockHeader.newSt Mex [0] [[1]] [2] [3] 5 10 4 [0] ⟨0⟩).2).2).loads
      = 2 := rfl

/-- C10: an explicit JSON null under `"proof.random_v"` is accepted and
treated identically to the key's absence: decoding succeeds with
`random_v = none`. -/
theorem deserializeHR_null_random_v (ps : PartialSolution) (w : List Nat) :
    ProverSolution.deserializeHR
      (.obj [("partial_solution", ps.toJson), ("proof.w", jsonOfBytes w),
        ("proof.random_v", .null)]) = some ⟨ps, ⟨w, none⟩⟩ ∧
    ProverSolution.deserializeHR
      (.obj [("partial_solution", ps.toJson), ("proof.w", jsonOfBytes w),
        ("proof.random_v", .null)])
      = ProverSolution.deserializeHR
        (.obj [("partial_solution", ps.toJson), ("proof.w", jsonOfBytes w)]) := by
  have h1 : takeFromValue "partial_solution"
      (.obj [("partial_solution", ps.toJson), ("proof.w", jsonOfBytes w),
        ("proof.random_v", .null)])
      = some (ps.toJson,
          .obj [("proof.w", jsonOfBytes w), ("proof.random_v", .null)]) := rfl
  have h2 : takeFromValue "proof.w"
      (.obj [("proof.w", jsonOfBytes w), ("proof.random_v", .null)] : Json)
      = some (jsonOfBytes w, .obj [("proof.random_v", .null)]) := rfl
  have h3 : takeFromValue "partial_solution"
      (.obj [("partial_solution", ps.toJson), ("proof.w", jsonOfBytes w)])
      = some (ps.toJson, .obj [("proof.w", jsonOfBytes w)]) := rfl
  have h4 : takeFromValue "proof.w" (.obj [("proof.w", jsonOfBytes w)] : Json)
      = some (jsonOfBytes w, .obj []) := rfl
  constructor
  · simp only [ProverSolution.deserializeHR, h1, h2, Option.bind_eq_bind,
      Option.some_bind, PartialSolution.fromJson_toJson, jsonBytes_jsonOfBytes]
    rfl
  · simp only [ProverSolution.deserializeHR, h1, h2, h3, h4, Option.bind_eq_bind,
      Option.some_bind, PartialSolution.fromJson_toJson, jsonBytes_jsonOfBytes]
    rfl

end SnarkVM
